import Mathlib

/-!
# Verification of the review-dashboard reputation core

Shallow embedding of the repository's core logic:

* `getRiskLevelFromRating` and `computeReputationMetrics` from
  `src/lib/reputation-risk.ts` (star-rating risk classification and the
  windowed reputation metrics);
* the bounded streaming importer from `src/scripts/import-yelp.ts`
  (business selection, review selection, upsert persistence);
* the filter validation of the `GET /api/reviews` route.

Numbers: JavaScript numbers are modelled as `ℚ` where division occurs
(averages, thresholds) and as `ℤ` for integer ratings and millisecond
timestamps.  Dates are modelled by their millisecond epoch value, matching
the `Date` arithmetic and comparisons in the source.
-/

namespace ReviewDashboard

/-- Risk classification of a single review, from `src/lib/reputation-risk.ts`. -/
inductive RiskLevel where
  | HIGH_RISK
  | MEDIUM_RISK
  | LOW_RISK
deriving DecidableEq, Repr

/-- Reputation status of a business, from `src/lib/reputation-risk.ts`. -/
inductive ReputationStatus where
  | HEALTHY
  | WATCH
  | AT_RISK
deriving DecidableEq, Repr

/-- `getRiskLevelFromRating` from `src/lib/reputation-risk.ts`:
`if (rating <= 2) return HIGH_RISK; if (rating === 3) return MEDIUM_RISK;
return LOW_RISK`. -/
def getRiskLevelFromRating (rating : ℤ) : RiskLevel :=
  if rating ≤ 2 then .HIGH_RISK
  else if rating = 3 then .MEDIUM_RISK
  else .LOW_RISK

/-- The `rating`/`date` projection of a stored review used by
`computeReputationMetrics` (`select: { rating, date }`).  `date` is the
millisecond epoch value of the review's `Date`. -/
structure Review where
  rating : ℤ
  date : ℤ
deriving DecidableEq, Repr

/-- The `ReputationMetrics` record returned by `computeReputationMetrics`. -/
structure ReputationMetrics where
  reputationStatus : ReputationStatus
  hasLowRatingSpike : Bool
  recentLowRatingCount : ℕ
  previousLowRatingCount : ℕ
  recentAvgRating : Option ℚ
  lifetimeAvgRating : ℚ
deriving DecidableEq, Repr

/-- One day in milliseconds, `24 * 60 * 60 * 1000`. -/
def dayMs : ℤ := 24 * 60 * 60 * 1000

/-- Sum of the ratings of a list of reviews, as in
`reviews.reduce((sum, r) => sum + r.rating, 0)`. -/
def ratingSum (rs : List Review) : ℤ :=
  rs.foldl (fun sum r => sum + r.rating) 0

/-- `computeReputationMetrics` from `src/lib/reputation-risk.ts`, with the
business's stored reviews and the current time passed explicitly (the source
reads `now = new Date()` and loads the reviews from storage). -/
def computeReputationMetrics (allReviews : List Review) (now : ℤ) :
    ReputationMetrics :=
  let thirtyDaysAgo : ℤ := now - 30 * dayMs
  let sevenDaysAgo : ℤ := now - 7 * dayMs
  let fourteenDaysAgo : ℤ := now - 14 * dayMs
  let lifetimeAvgRating : ℚ :=
    if 0 < allReviews.length then
      (ratingSum allReviews : ℚ) / (allReviews.length : ℚ)
    else 0
  let recentReviews := allReviews.filter (fun r => thirtyDaysAgo ≤ r.date)
  let lowRatingRecentCount :=
    (recentReviews.filter (fun r => r.rating ≤ 2)).length
  let recentAvgRating : Option ℚ :=
    if 0 < recentReviews.length then
      some ((ratingSum recentReviews : ℚ) / (recentReviews.length : ℚ))
    else none
  let last7DaysReviews := allReviews.filter (fun r => sevenDaysAgo ≤ r.date)
  let previous7DaysReviews := allReviews.filter
    (fun r => fourteenDaysAgo ≤ r.date ∧ r.date < sevenDaysAgo)
  let recentLowRatingCount :=
    (last7DaysReviews.filter (fun r => r.rating ≤ 2)).length
  let previousLowRatingCount :=
    (previous7DaysReviews.filter (fun r => r.rating ≤ 2)).length
  let hasLowRatingSpike : Bool :=
    (decide (0 < previousLowRatingCount) &&
      decide (previousLowRatingCount * 2 ≤ recentLowRatingCount)) ||
    decide ((2 : ℤ) ≤ (recentLowRatingCount : ℤ) - (previousLowRatingCount : ℤ))
  let ratingDrop : ℚ :=
    match recentAvgRating with
    | some a => lifetimeAvgRating - a
    | none => 0
  let reputationStatus : ReputationStatus :=
    if 3 ≤ lowRatingRecentCount ∨ (7 : ℚ) / 10 ≤ ratingDrop then .AT_RISK
    else if 1 ≤ lowRatingRecentCount ∨ (4 : ℚ) / 10 ≤ ratingDrop then .WATCH
    else .HEALTHY
  { reputationStatus := reputationStatus
    hasLowRatingSpike := hasLowRatingSpike
    recentLowRatingCount := recentLowRatingCount
    previousLowRatingCount := previousLowRatingCount
    recentAvgRating := recentAvgRating
    lifetimeAvgRating := lifetimeAvgRating }

/-! ## Spec-side quantities

The following definitions transcribe the specification's wording for the
windowed counts and averages, to be compared with the implementation. -/

/-- Spec: count of reviews rated at most 2 dated within 30 days of now. -/
def lowCount30 (rs : List Review) (now : ℤ) : ℕ :=
  rs.countP (fun r => decide (r.rating ≤ 2) && decide (now - 30 * dayMs ≤ r.date))

/-- Spec: count of reviews rated at most 2 dated within the last 7 days. -/
def lowCount7 (rs : List Review) (now : ℤ) : ℕ :=
  rs.countP (fun r => decide (r.rating ≤ 2) && decide (now - 7 * dayMs ≤ r.date))

/-- Spec: count of reviews rated at most 2 dated within the previous
7-to-14-day window. -/
def lowCountPrev7 (rs : List Review) (now : ℤ) : ℕ :=
  rs.countP (fun r =>
    decide (r.rating ≤ 2) &&
      decide (now - 14 * dayMs ≤ r.date ∧ r.date < now - 7 * dayMs))

/-- Spec: lifetime average rating, arithmetic mean of all ratings, 0 when the
review set is empty. -/
def lifetimeAvg (rs : List Review) : ℚ :=
  if rs = [] then 0 else ((rs.map Review.rating).sum : ℚ) / (rs.length : ℚ)

/-- Spec: the 30-day average rating, `none` when the window is empty. -/
def recentAvg30 (rs : List Review) (now : ℤ) : Option ℚ :=
  let window := rs.filter (fun r => now - 30 * dayMs ≤ r.date)
  if window = [] then none
  else some (((window.map Review.rating).sum : ℚ) / (window.length : ℚ))

/-- Spec: rating drop, lifetime average minus 30-day average, taken to be 0
when the 30-day window is empty. -/
def ratingDropSpec (rs : List Review) (now : ℤ) : ℚ :=
  match recentAvg30 rs now with
  | some a => lifetimeAvg rs - a
  | none => 0

/-! ## Importer (`src/scripts/import-yelp.ts`)

The importer streams two line-delimited JSON files.  The embedding takes the
already-parsed record sequences as input lists (malformed lines are dropped
by `readJsonLines` before any of the logic modelled here runs).  The store
(`prisma.business` / `prisma.review`) is modelled as two lists of rows, and
`upsert` with an empty `update` clause as create-if-absent / no-op.  In this
model a persistence call never throws, so the `catch` branches of the source
are never taken. -/

/-- One parsed line of the Yelp business file, fields the importer consumes. -/
structure YelpBusiness where
  business_id : String
  name : String
  city : String
  state : String
  categories : Option String
  stars : ℚ
  review_count : ℤ
deriving DecidableEq, Repr

/-- One parsed line of the Yelp review file, fields the importer consumes.
`date` is the millisecond epoch value of `new Date(review.date)`. -/
structure YelpReview where
  review_id : String
  business_id : String
  stars : ℤ
  text : String
  date : ℤ
deriving DecidableEq, Repr

/-- A persisted `Business` row. -/
structure BusinessRow where
  id : String
  name : String
  city : String
  state : String
  categories : List String
  stars : ℚ
  reviewCount : ℤ
deriving DecidableEq, Repr

/-- A persisted `Review` row. -/
structure ReviewRow where
  id : String
  businessId : String
  rating : ℤ
  text : String
  date : ℤ
  riskLevel : RiskLevel
deriving DecidableEq, Repr

/-- The relational store: the `business` and `review` tables. -/
structure Db where
  businesses : List BusinessRow
  reviews : List ReviewRow
deriving DecidableEq, Repr

/-- The store before any import. -/
def emptyDb : Db := ⟨[], []⟩

/-- Primary keys of the persisted business rows. -/
def businessIdsOf (db : Db) : List String := db.businesses.map BusinessRow.id

/-- Primary keys of the persisted review rows. -/
def reviewIdsOf (db : Db) : List String := db.reviews.map ReviewRow.id

/-- The keep condition of the business pass:
`business.review_count > 0 && business.name && business.city &&
business.state` (a JavaScript string is truthy iff non-empty). -/
def validBusiness (b : YelpBusiness) : Bool :=
  decide (0 < b.review_count) && decide (b.name ≠ "") &&
    decide (b.city ≠ "") && decide (b.state ≠ "")

/-- The accumulation loop of `importBusinesses`: keep valid records until the
`MAX_BUSINESSES` bound is reached, then stop reading. -/
def selectBusinesses (maxB : ℕ) : List YelpBusiness → List YelpBusiness →
    List YelpBusiness
  | [], acc => acc
  | b :: rest, acc =>
    if validBusiness b then
      let acc2 := acc ++ [b]
      if maxB ≤ acc2.length then acc2 else selectBusinesses maxB rest acc2
    else selectBusinesses maxB rest acc

/-- Stable insertion of a business into a list sorted by `review_count`
descending; equal keys keep input order. -/
def insertByReviewCountDesc (b : YelpBusiness) :
    List YelpBusiness → List YelpBusiness
  | [] => [b]
  | x :: xs =>
    if x.review_count < b.review_count then b :: x :: xs
    else x :: insertByReviewCountDesc b xs

/-- `businesses.sort((a, b) => b.review_count - a.review_count)`: a stable
sort by review count descending (ECMAScript `Array.prototype.sort` is
stable), realised as a stable insertion sort. -/
def sortByReviewCountDesc (l : List YelpBusiness) : List YelpBusiness :=
  l.foldr insertByReviewCountDesc []

/-- `business.categories ? business.categories.split(',').map(trim) : []`. -/
def parseCategories : Option String → List String
  | some s => (s.splitOn ",").map String.trim
  | none => []

/-- The `create` clause of the business upsert. -/
def mkBusinessRow (b : YelpBusiness) : BusinessRow :=
  { id := b.business_id, name := b.name, city := b.city, state := b.state
    categories := parseCategories b.categories, stars := b.stars
    reviewCount := b.review_count }

/-- `prisma.business.upsert({ where: { id }, update: {}, create: {...} })`:
create if the key is absent, otherwise change nothing. -/
def upsertBusiness (db : Db) (b : YelpBusiness) : Db :=
  if b.business_id ∈ businessIdsOf db then db
  else { db with businesses := db.businesses ++ [mkBusinessRow b] }

/-- One iteration of the persistence loop of `importBusinesses`: upsert the
row and add its id to the `businessIds` set. -/
def importBusinessesStep (st : Db × List String) (b : YelpBusiness) :
    Db × List String :=
  (upsertBusiness st.1 b,
   if b.business_id ∈ st.2 then st.2 else st.2 ++ [b.business_id])

/-- `importBusinesses`: select and sort the bounded subset, persist it, and
return the new store together with the set of business ids persisted. -/
def importBusinesses (maxB : ℕ) (binput : List YelpBusiness) (db : Db) :
    Db × List String :=
  (sortByReviewCountDesc (selectBusinesses maxB binput [])).foldl
    importBusinessesStep (db, [])

/-- The `create` clause of the review upsert: the risk level is computed from
the star rating at ingestion time. -/
def mkReviewRow (rv : YelpReview) : ReviewRow :=
  { id := rv.review_id, businessId := rv.business_id, rating := rv.stars
    text := rv.text, date := rv.date
    riskLevel := getRiskLevelFromRating rv.stars }

/-- `prisma.review.upsert({ where: { id }, update: {}, create: {...} })`. -/
def upsertReview (db : Db) (row : ReviewRow) : Db :=
  if row.id ∈ reviewIdsOf db then db
  else { db with reviews := db.reviews ++ [row] }

/-- The mutable state of the review pass: the store, the per-business
`reviewCountByBusiness` map, `totalImported` and `skipped`. -/
structure ReviewState where
  db : Db
  counts : String → ℕ
  total : ℕ
  skipped : ℕ

/-- Skipping a review: only the `skipped` counter moves. -/
def skipReview (st : ReviewState) : ReviewState :=
  { st with skipped := st.skipped + 1 }

/-- Persisting a review: upsert the row, bump the per-business count and
`totalImported`. -/
def persistReview (rv : YelpReview) (st : ReviewState) : ReviewState :=
  { db := upsertReview st.db (mkReviewRow rv)
    counts := fun s =>
      if s = rv.business_id then st.counts rv.business_id + 1
      else st.counts s
    total := st.total + 1
    skipped := st.skipped }

/-- The loop body of `importReviews`: skip reviews of unknown businesses,
skip reviews past the per-business cap, otherwise upsert and count; break
out of the loop once `totalImported` reaches the global bound (the break
check runs after the upsert of the current review). -/
def importReviewsLoop (bids : List String) (maxR maxTotal : ℕ) :
    List YelpReview → ReviewState → ReviewState
  | [], st => st
  | rv :: rest, st =>
    if rv.business_id ∉ bids then
      importReviewsLoop bids maxR maxTotal rest (skipReview st)
    else if maxR ≤ st.counts rv.business_id then
      importReviewsLoop bids maxR maxTotal rest (skipReview st)
    else if maxTotal ≤ (persistReview rv st).total then persistReview rv st
    else importReviewsLoop bids maxR maxTotal rest (persistReview rv st)

/-- The review pass starts with an empty count map and zero counters. -/
def initReviewState (db : Db) : ReviewState :=
  { db := db, counts := fun _ => 0, total := 0, skipped := 0 }

/-- The whole import run (`main`): the business pass, then the review pass
scoped by the persisted business ids, with the global review bound
`MAX_BUSINESSES * MAX_REVIEWS_PER_BUSINESS`. -/
def runImport (maxB maxR : ℕ) (binput : List YelpBusiness)
    (rinput : List YelpReview) (db : Db) : Db :=
  let bres := importBusinesses maxB binput db
  (importReviewsLoop bres.2 maxR (maxB * maxR) rinput
    (initReviewState bres.1)).db

/-- Number of persisted review rows owned by one business. -/
def reviewRowsFor (db : Db) (bid : String) : ℕ :=
  (db.reviews.filter (fun row => row.businessId = bid)).length

/-! ## `GET /api/reviews` filter validation

Embedding of the filter construction of the reviews route.  Query
parameters arrive as strings; the numeric ones are modelled as the integer
value `parseInt` produced (`none` when the parameter is absent or empty,
which is falsy).  `limit` is not validated by the route and does not matter
for the claims. -/

/-- The parsed query parameters of a reviews-filter request. -/
structure ReviewsQuery where
  businessId : Option String
  riskLevel : Option String
  rating : Option ℤ
  minRating : Option ℤ
  maxRating : Option ℤ
  limit : ℕ
  needsAttention : Bool
deriving DecidableEq, Repr

/-- The `where.rating` field: either an exact value or a `gte`/`lte` range. -/
inductive RatingWhere where
  | exact (n : ℤ)
  | range (gte : Option ℤ) (lte : Option ℤ)
deriving DecidableEq, Repr

/-- The dynamically built `where` object of the route. -/
structure ReviewWhere where
  businessId : Option String
  riskLevel : Option String
  dateGte : Option ℤ
  rating : Option RatingWhere
deriving DecidableEq, Repr

/-- The valid risk-level enum values accepted by the route. -/
def validRiskLevels : List String := ["HIGH_RISK", "MEDIUM_RISK", "LOW_RISK"]

/-- String form of a stored risk level, as serialised by the store. -/
def riskLevelString : RiskLevel → String
  | .HIGH_RISK => "HIGH_RISK"
  | .MEDIUM_RISK => "MEDIUM_RISK"
  | .LOW_RISK => "LOW_RISK"

/-- The filter-construction and validation phase of `GET /api/reviews`,
run before any query executes.  Mirrors the route: `needsAttention` forces
`riskLevel = HIGH_RISK` and a 30-day date bound; an explicit `riskLevel`
parameter is checked against the enum only when `needsAttention` is not
set; an exact `rating` outside `[1,5]` is a client-input error; `minRating`
and `maxRating` are added to a range filter only when they lie in `[1,5]`
and are otherwise ignored. -/
def buildWhere (q : ReviewsQuery) (now : ℤ) : Except String ReviewWhere :=
  let w0 : ReviewWhere :=
    { businessId := none, riskLevel := none, dateGte := none, rating := none }
  let w1 : ReviewWhere :=
    match q.businessId with
    | some s => if s = "" then w0 else { w0 with businessId := some s }
    | none => w0
  let w2 : ReviewWhere :=
    if q.needsAttention then
      { w1 with riskLevel := some "HIGH_RISK"
                dateGte := some (now - 30 * dayMs) }
    else w1
  let riskStep : Except String ReviewWhere :=
    match q.riskLevel with
    | some s =>
      if s ≠ "" ∧ ¬q.needsAttention then
        if s ∈ validRiskLevels then .ok { w2 with riskLevel := some s }
        else .error "Invalid risk level. Must be HIGH_RISK, MEDIUM_RISK, or LOW_RISK"
      else .ok w2
    | none => .ok w2
  match riskStep with
  | .error e => .error e
  | .ok w3 =>
    match q.rating with
    | some n =>
      if 1 ≤ n ∧ n ≤ 5 then .ok { w3 with rating := some (.exact n) }
      else .error "Rating must be between 1 and 5"
    | none =>
      let gte : Option ℤ :=
        match q.minRating with
        | some m => if 1 ≤ m ∧ m ≤ 5 then some m else none
        | none => none
      let lte : Option ℤ :=
        match q.maxRating with
        | some m => if 1 ≤ m ∧ m ≤ 5 then some m else none
        | none => none
      if gte.isSome ∨ lte.isSome then
        .ok { w3 with rating := some (.range gte lte) }
      else .ok w3

/-- Whether a stored review row matches a built `where` object. -/
def matchesWhere (w : ReviewWhere) (row : ReviewRow) : Bool :=
  (match w.businessId with
   | some b => decide (row.businessId = b)
   | none => true) &&
  (match w.riskLevel with
   | some s => decide (riskLevelString row.riskLevel = s)
   | none => true) &&
  (match w.dateGte with
   | some d => decide (d ≤ row.date)
   | none => true) &&
  (match w.rating with
   | some (.exact n) => decide (row.rating = n)
   | some (.range gte lte) =>
     (match gte with
      | some m => decide (m ≤ row.rating)
      | none => true) &&
     (match lte with
      | some m => decide (row.rating ≤ m)
      | none => true)
   | none => true)

/-- The query phase of the route: validation first, then the scan of the
review table under the built filter (result limited to `limit` rows).  A
validation error is returned before any row is scanned. -/
def reviewsHandler (q : ReviewsQuery) (now : ℤ) (db : Db) :
    Except String (List ReviewRow) :=
  match buildWhere q now with
  | .error e => .error e
  | .ok w => .ok ((db.reviews.filter (matchesWhere w)).take q.limit)

/-! ## Concrete inputs used by counterexamples and witnesses -/

/-- A current time of 40 days (in ms) past the epoch. -/
def nowC9 : ℤ := 40 * dayMs

/-- Ten reviews: nine dated at the epoch (outside every window for
`nowC9`) with ratings summing to 16, and one 1-star review dated `nowC9`.
Lifetime average `17/10`, 30-day average `1`, rating drop exactly `7/10`. -/
def rsC9 : List Review :=
  [⟨1, 0⟩, ⟨1, 0⟩, ⟨1, 0⟩, ⟨1, 0⟩, ⟨1, 0⟩, ⟨1, 0⟩, ⟨1, 0⟩, ⟨4, 0⟩, ⟨5, 0⟩,
   ⟨1, nowC9⟩]

/-- Three 1-star reviews dated at time 0. -/
def rsThreeOnes : List Review := [⟨1, 0⟩, ⟨1, 0⟩, ⟨1, 0⟩]

/-- Two 1-star reviews dated at time 0. -/
def rsTwoOnes : List Review := [⟨1, 0⟩, ⟨1, 0⟩]

/-- A reviews-filter request asking for `minRating=7` and nothing else. -/
def qMin7 : ReviewsQuery :=
  { businessId := none, riskLevel := none, rating := none,
    minRating := some 7, maxRating := none, limit := 50,
    needsAttention := false }

/-- A reviews-filter request asking for the exact rating 7. -/
def qRating7 : ReviewsQuery :=
  { businessId := none, riskLevel := none, rating := some 7,
    minRating := none, maxRating := none, limit := 50,
    needsAttention := false }

/-- The `where` object with no filter set. -/
def wEmpty : ReviewWhere :=
  { businessId := none, riskLevel := none, dateGte := none, rating := none }

/-- A stored 5-star review row. -/
def rowFive : ReviewRow :=
  { id := "r1", businessId := "b1", rating := 5, text := "great",
    date := 0, riskLevel := .LOW_RISK }

/-- One valid Yelp business record. -/
def bizW : YelpBusiness :=
  { business_id := "b1", name := "Cafe", city := "Springfield",
    state := "IL", categories := none, stars := 4, review_count := 3 }

/-- One Yelp review record for `bizW`. -/
def revW : YelpReview :=
  { review_id := "r1", business_id := "b1", stars := 1,
    text := "bad", date := 0 }

/-- A second Yelp review record for `bizW`. -/
def revW2 : YelpReview :=
  { review_id := "r2", business_id := "b1", stars := 5,
    text := "good", date := 0 }

/-! ## Reputation engine: characterization lemmas -/

theorem ratingSum_eq_sum (rs : List Review) :
    ratingSum rs = (rs.map Review.rating).sum := by
  rw [ratingSum, List.sum_eq_foldl, List.foldl_map]

/-- `computeReputationMetrics` computed field by field in terms of the
spec-side windowed quantities. -/
theorem computeReputationMetrics_eq (rs : List Review) (now : ℤ) :
    computeReputationMetrics rs now =
      { reputationStatus :=
          if 3 ≤ lowCount30 rs now ∨ (7 : ℚ) / 10 ≤ ratingDropSpec rs now then
            .AT_RISK
          else if 1 ≤ lowCount30 rs now ∨
              (4 : ℚ) / 10 ≤ ratingDropSpec rs now then
            .WATCH
          else .HEALTHY
        hasLowRatingSpike :=
          (decide (0 < lowCountPrev7 rs now) &&
            decide (lowCountPrev7 rs now * 2 ≤ lowCount7 rs now)) ||
          decide ((2 : ℤ) ≤ (lowCount7 rs now : ℤ) - (lowCountPrev7 rs now : ℤ))
        recentLowRatingCount := lowCount7 rs now
        previousLowRatingCount := lowCountPrev7 rs now
        recentAvgRating := recentAvg30 rs now
        lifetimeAvgRating := lifetimeAvg rs } := by
  have h30 : ((rs.filter (fun r => decide (now - 30 * dayMs ≤ r.date))).filter
      (fun r => decide (r.rating ≤ 2))).length = lowCount30 rs now := by
    rw [List.filter_filter, lowCount30, List.countP_eq_length_filter]
  have h7 : ((rs.filter (fun r => decide (now - 7 * dayMs ≤ r.date))).filter
      (fun r => decide (r.rating ≤ 2))).length = lowCount7 rs now := by
    rw [List.filter_filter, lowCount7, List.countP_eq_length_filter]
  have hp7 : ((rs.filter (fun r =>
        decide (now - 14 * dayMs ≤ r.date ∧ r.date < now - 7 * dayMs))).filter
      (fun r => decide (r.rating ≤ 2))).length = lowCountPrev7 rs now := by
    rw [List.filter_filter, lowCountPrev7, List.countP_eq_length_filter]
  have hlife : (if 0 < rs.length then
      ((ratingSum rs : ℤ) : ℚ) / (rs.length : ℚ) else 0) = lifetimeAvg rs := by
    rcases eq_or_ne rs [] with h | h
    · subst h; simp [lifetimeAvg, ratingSum]
    · rw [if_pos (List.length_pos.mpr h), lifetimeAvg, if_neg h,
        ratingSum_eq_sum]
  have hrec : (if 0 <
        (rs.filter (fun r => decide (now - 30 * dayMs ≤ r.date))).length then
      some (((ratingSum
          (rs.filter (fun r => decide (now - 30 * dayMs ≤ r.date))) : ℤ) : ℚ) /
        ((rs.filter (fun r => decide (now - 30 * dayMs ≤ r.date))).length : ℚ))
      else none) = recentAvg30 rs now := by
    rw [recentAvg30]
    rcases eq_or_ne (rs.filter (fun r => decide (now - 30 * dayMs ≤ r.date)))
        [] with h | h
    · rw [h]; simp
    · rw [if_pos (List.length_pos.mpr h), if_neg h, ratingSum_eq_sum]
  simp only [computeReputationMetrics]
  rw [h30, h7, hp7, hlife, hrec, ratingDropSpec]

theorem metricsStatus_eq (rs : List Review) (now : ℤ) :
    (computeReputationMetrics rs now).reputationStatus =
      (if 3 ≤ lowCount30 rs now ∨ (7 : ℚ) / 10 ≤ ratingDropSpec rs now then
        ReputationStatus.AT_RISK
       else if 1 ≤ lowCount30 rs now ∨
          (4 : ℚ) / 10 ≤ ratingDropSpec rs now then
        ReputationStatus.WATCH
       else ReputationStatus.HEALTHY) := by
  rw [computeReputationMetrics_eq]

theorem metricsSpike_eq (rs : List Review) (now : ℤ) :
    (computeReputationMetrics rs now).hasLowRatingSpike =
      ((decide (0 < lowCountPrev7 rs now) &&
          decide (lowCountPrev7 rs now * 2 ≤ lowCount7 rs now)) ||
        decide ((2 : ℤ) ≤
          (lowCount7 rs now : ℤ) - (lowCountPrev7 rs now : ℤ))) := by
  rw [computeReputationMetrics_eq]

/-- A review counted by the 7-day low-rating window is also counted by the
30-day low-rating window. -/
theorem lowCount7_le_lowCount30 (rs : List Review) (now : ℤ) :
    lowCount7 rs now ≤ lowCount30 rs now := by
  rw [lowCount7, lowCount30]
  refine List.countP_mono_left ?_
  intro r _ h
  simp only [Bool.and_eq_true, decide_eq_true_eq] at h ⊢
  refine ⟨h.1, ?_⟩
  have h2 := h.2
  norm_num [dayMs] at h2 ⊢
  omega

/-- Appending a 1-star review dated now makes the 30-day low-rating count
positive. -/
theorem lowCount30_append_one_star (rs : List Review) (now : ℤ) :
    1 ≤ lowCount30 (rs ++ [⟨1, now⟩]) now := by
  rw [lowCount30, List.countP_append]
  have h : List.countP
      (fun r => decide (r.rating ≤ 2) && decide (now - 30 * dayMs ≤ r.date))
      [(⟨1, now⟩ : Review)] = 1 := by
    norm_num [List.countP, List.countP.go, dayMs]
  omega

/-! ## Claim theorems: reputation engine -/

/-- C2: for every review set and current time, the reputation status is
decided by first match in fixed order: AT_RISK when the 30-day low-rating
count is at least 3 or the rating drop is at least 0.7, otherwise WATCH when
the 30-day low-rating count is at least 1 or the rating drop is at least
0.4, otherwise HEALTHY. -/
theorem c2_status_first_match (rs : List Review) (now : ℤ) :
    (computeReputationMetrics rs now).reputationStatus =
      (if 3 ≤ lowCount30 rs now ∨ (7 : ℚ) / 10 ≤ ratingDropSpec rs now then
        ReputationStatus.AT_RISK
       else if 1 ≤ lowCount30 rs now ∨
          (4 : ℚ) / 10 ≤ ratingDropSpec rs now then
        ReputationStatus.WATCH
       else ReputationStatus.HEALTHY) :=
  metricsStatus_eq rs now

/-- C3: `hasLowRatingSpike` holds exactly when the previous 7-to-14-day
low-rating count is positive and the last-7-day count has at least doubled,
or the absolute increase is at least 2.  With a previous count of 0 only the
absolute-increase clause can fire, so previous 0 / recent 1 gives no
spike. -/
theorem c3_spike_iff (rs : List Review) (now : ℤ) :
    (computeReputationMetrics rs now).hasLowRatingSpike = true ↔
      ((0 < lowCountPrev7 rs now ∧
          lowCountPrev7 rs now * 2 ≤ lowCount7 rs now) ∨
        (2 : ℤ) ≤ (lowCount7 rs now : ℤ) - (lowCountPrev7 rs now : ℤ)) := by
  rw [metricsSpike_eq]
  simp

/-- C4: on an empty review set the metrics are lifetime average 0, recent
average null, no spike, status HEALTHY. -/
theorem c4_empty_reviews (now : ℤ) :
    (computeReputationMetrics [] now).lifetimeAvgRating = 0 ∧
      (computeReputationMetrics [] now).recentAvgRating = none ∧
      (computeReputationMetrics [] now).hasLowRatingSpike = false ∧
      (computeReputationMetrics [] now).reputationStatus =
        ReputationStatus.HEALTHY := by
  refine ⟨?_, ?_, ?_, ?_⟩ <;>
    norm_num [computeReputationMetrics, ratingSum]

/-- C9 counterexample: a business that is AT_RISK purely through a rating
drop of exactly 0.7 (ten reviews, lifetime average 17/10, one recent 1-star,
30-day average 1) falls back to WATCH when one more 1-star review dated now
is added: the drop shrinks to 7/11 < 0.7 while the 30-day low-rating count
only reaches 2 < 3. -/
theorem c9_counterexample :
    (computeReputationMetrics rsC9 nowC9).reputationStatus =
        ReputationStatus.AT_RISK ∧
      (computeReputationMetrics (rsC9 ++ [⟨1, nowC9⟩]) nowC9).reputationStatus =
        ReputationStatus.WATCH ∧
      (computeReputationMetrics (rsC9 ++ [⟨1, nowC9⟩]) nowC9).reputationStatus ≠
        ReputationStatus.AT_RISK := by
  have h1 : (computeReputationMetrics rsC9 nowC9).reputationStatus =
      ReputationStatus.AT_RISK := by
    norm_num [computeReputationMetrics, rsC9, nowC9, dayMs, ratingSum,
      List.filter]
  have h2 : (computeReputationMetrics
      (rsC9 ++ [⟨1, nowC9⟩]) nowC9).reputationStatus =
      ReputationStatus.WATCH := by
    norm_num [computeReputationMetrics, rsC9, nowC9, dayMs, ratingSum,
      List.filter]
  refine ⟨h1, h2, ?_⟩
  rw [h2]
  decide

/-- C9 amended: adding one 1-star review dated at the current time to a
review set whose status is AT_RISK can lower the status to WATCH, but never
to HEALTHY: the added review alone puts the 30-day low-rating count at 1 or
more. -/
theorem c9_amended_one_star_not_healthy (rs : List Review) (now : ℤ)
    (_h : (computeReputationMetrics rs now).reputationStatus =
      ReputationStatus.AT_RISK) :
    (computeReputationMetrics (rs ++ [⟨1, now⟩]) now).reputationStatus ≠
      ReputationStatus.HEALTHY := by
  have h1 : 1 ≤ lowCount30 (rs ++ [⟨1, now⟩]) now :=
    lowCount30_append_one_star rs now
  rw [metricsStatus_eq]
  split_ifs with h2 h3
  · simp
  · simp
  · exact absurd (Or.inl h1) h3

/-- Witness for the amended C9 at a concrete AT_RISK input. -/
theorem c9_amended_witness :
    (computeReputationMetrics rsThreeOnes 0).reputationStatus =
        ReputationStatus.AT_RISK ∧
      (computeReputationMetrics (rsThreeOnes ++ [⟨1, 0⟩]) 0).reputationStatus ≠
        ReputationStatus.HEALTHY := by
  have h : (computeReputationMetrics rsThreeOnes 0).reputationStatus =
      ReputationStatus.AT_RISK := by
    norm_num [computeReputationMetrics, rsThreeOnes, dayMs, ratingSum,
      List.filter]
  exact ⟨h, c9_amended_one_star_not_healthy rsThreeOnes 0 h⟩

/-- C10: a reported spike forces the last-7-day low-rating count to at least
2, and those reviews also fall in the 30-day window, so the status cannot be
HEALTHY. -/
theorem c10_spike_not_healthy (rs : List Review) (now : ℤ)
    (h : (computeReputationMetrics rs now).hasLowRatingSpike = true) :
    2 ≤ lowCount7 rs now ∧
      (computeReputationMetrics rs now).reputationStatus ≠
        ReputationStatus.HEALTHY := by
  rw [metricsSpike_eq] at h
  simp only [Bool.or_eq_true, Bool.and_eq_true, decide_eq_true_eq] at h
  have h7 : 2 ≤ lowCount7 rs now := by
    rcases h with ⟨hp, hd⟩ | hinc
    · omega
    · omega
  have h30 : 1 ≤ lowCount30 rs now :=
    le_trans (by omega) (lowCount7_le_lowCount30 rs now)
  refine ⟨h7, ?_⟩
  rw [metricsStatus_eq]
  split_ifs with h2 h3
  · simp
  · simp
  · exact absurd (Or.inl h30) h3

/-- Witness for C10: two 1-star reviews dated now trigger the
absolute-increase clause. -/
theorem c10_witness :
    2 ≤ lowCount7 rsTwoOnes 0 ∧
      (computeReputationMetrics rsTwoOnes 0).reputationStatus ≠
        ReputationStatus.HEALTHY := by
  have h : (computeReputationMetrics rsTwoOnes 0).hasLowRatingSpike = true := by
    norm_num [computeReputationMetrics, rsTwoOnes, dayMs, ratingSum,
      List.filter]
  exact c10_spike_not_healthy rsTwoOnes 0 h

/-! ## Importer: upsert lemmas -/

theorem upsertBusiness_reviews (db : Db) (b : YelpBusiness) :
    (upsertBusiness db b).reviews = db.reviews := by
  rw [upsertBusiness]; split <;> rfl

theorem upsertBusiness_of_mem {db : Db} {b : YelpBusiness}
    (h : b.business_id ∈ businessIdsOf db) : upsertBusiness db b = db := by
  rw [upsertBusiness, if_pos h]

theorem mem_businessIdsOf_upsertBusiness (db : Db) (b : YelpBusiness) :
    b.business_id ∈ businessIdsOf (upsertBusiness db b) := by
  rw [upsertBusiness]; split
  · assumption
  · simp [businessIdsOf, mkBusinessRow]

theorem businessIdsOf_subset_upsertBusiness (db : Db) (b : YelpBusiness) :
    businessIdsOf db ⊆ businessIdsOf (upsertBusiness db b) := by
  rw [upsertBusiness]; split
  · exact fun x hx => hx
  · intro x hx
    simp only [businessIdsOf, List.map_append, List.mem_append] at hx ⊢
    exact Or.inl hx

theorem length_upsertBusiness (db : Db) (b : YelpBusiness) :
    (upsertBusiness db b).businesses.length ≤ db.businesses.length + 1 := by
  rw [upsertBusiness]; split
  · omega
  · simp

theorem nodup_businessIdsOf_upsertBusiness {db : Db} (b : YelpBusiness)
    (h : (businessIdsOf db).Nodup) :
    (businessIdsOf (upsertBusiness db b)).Nodup := by
  rw [upsertBusiness]; split
  · exact h
  · rename_i hmem
    simp only [businessIdsOf, List.map_append, List.map_cons, List.map_nil]
    rw [List.nodup_append]
    refine ⟨h, List.nodup_singleton _, ?_⟩
    intro x hx hx1
    simp only [mkBusinessRow, List.mem_singleton] at hx1
    subst hx1
    exact hmem hx

theorem upsertReview_businesses (db : Db) (row : ReviewRow) :
    (upsertReview db row).businesses = db.businesses := by
  rw [upsertReview]; split <;> rfl

theorem upsertReview_of_mem {db : Db} {row : ReviewRow}
    (h : row.id ∈ reviewIdsOf db) : upsertReview db row = db := by
  rw [upsertReview, if_pos h]

theorem mem_reviewIdsOf_upsertReview (db : Db) (row : ReviewRow) :
    row.id ∈ reviewIdsOf (upsertReview db row) := by
  rw [upsertReview]; split
  · assumption
  · simp [reviewIdsOf]

theorem reviewIdsOf_subset_upsertReview (db : Db) (row : ReviewRow) :
    reviewIdsOf db ⊆ reviewIdsOf (upsertReview db row) := by
  rw [upsertReview]; split
  · exact fun x hx => hx
  · intro x hx
    simp only [reviewIdsOf, List.map_append, List.mem_append] at hx ⊢
    exact Or.inl hx

theorem length_upsertReview (db : Db) (row : ReviewRow) :
    (upsertReview db row).reviews.length ≤ db.reviews.length + 1 := by
  rw [upsertReview]; split
  · omega
  · simp

theorem mem_reviews_upsertReview {db : Db} {row r : ReviewRow}
    (h : r ∈ (upsertReview db row).reviews) :
    r ∈ db.reviews ∨ r = row := by
  rw [upsertReview] at h
  split at h
  · exact Or.inl h
  · simp only [List.mem_append, List.mem_singleton] at h
    exact h

theorem nodup_reviewIdsOf_upsertReview {db : Db} (row : ReviewRow)
    (h : (reviewIdsOf db).Nodup) :
    (reviewIdsOf (upsertReview db row)).Nodup := by
  rw [upsertReview]; split
  · exact h
  · rename_i hmem
    simp only [reviewIdsOf, List.map_append, List.map_cons, List.map_nil]
    rw [List.nodup_append]
    refine ⟨h, List.nodup_singleton _, ?_⟩
    intro x hx hx1
    simp only [List.mem_singleton] at hx1
    subst hx1
    exact hmem hx

theorem reviewRowsFor_upsertReview (db : Db) (row : ReviewRow) (bid : String) :
    reviewRowsFor (upsertReview db row) bid ≤
      reviewRowsFor db bid + (if row.businessId = bid then 1 else 0) := by
  rw [upsertReview]; split
  · split <;> omega
  · rw [reviewRowsFor, reviewRowsFor]
    simp only [List.filter_append, List.length_append]
    split <;> rename_i hb
    · simp [List.filter, hb]
    · simp [List.filter, hb]

/-! ## Importer: review-loop step equations -/

theorem importReviewsLoop_nil (bids : List String) (maxR maxT : ℕ)
    (st : ReviewState) : importReviewsLoop bids maxR maxT [] st = st := rfl

theorem importReviewsLoop_cons_unknown {bids : List String} {maxR maxT : ℕ}
    {rv : YelpReview} (rest : List YelpReview) {st : ReviewState}
    (h : rv.business_id ∉ bids) :
    importReviewsLoop bids maxR maxT (rv :: rest) st =
      importReviewsLoop bids maxR maxT rest (skipReview st) := by
  rw [importReviewsLoop, if_pos h]

theorem importReviewsLoop_cons_capped {bids : List String} {maxR maxT : ℕ}
    {rv : YelpReview} (rest : List YelpReview) {st : ReviewState}
    (h1 : ¬rv.business_id ∉ bids) (h2 : maxR ≤ st.counts rv.business_id) :
    importReviewsLoop bids maxR maxT (rv :: rest) st =
      importReviewsLoop bids maxR maxT rest (skipReview st) := by
  rw [importReviewsLoop, if_neg h1, if_pos h2]

theorem importReviewsLoop_cons_break {bids : List String} {maxR maxT : ℕ}
    {rv : YelpReview} (rest : List YelpReview) {st : ReviewState}
    (h1 : ¬rv.business_id ∉ bids) (h2 : ¬maxR ≤ st.counts rv.business_id)
    (h3 : maxT ≤ (persistReview rv st).total) :
    importReviewsLoop bids maxR maxT (rv :: rest) st = persistReview rv st := by
  rw [importReviewsLoop, if_neg h1, if_neg h2, if_pos h3]

theorem importReviewsLoop_cons_go {bids : List String} {maxR maxT : ℕ}
    {rv : YelpReview} (rest : List YelpReview) {st : ReviewState}
    (h1 : ¬rv.business_id ∉ bids) (h2 : ¬maxR ≤ st.counts rv.business_id)
    (h3 : ¬maxT ≤ (persistReview rv st).total) :
    importReviewsLoop bids maxR maxT (rv :: rest) st =
      importReviewsLoop bids maxR maxT rest (persistReview rv st) := by
  rw [importReviewsLoop, if_neg h1, if_neg h2, if_neg h3]

/-! ## Importer: review-loop invariants -/

/-- The review pass never touches the business table. -/
theorem importReviewsLoop_businesses (bids : List String) (maxR maxT : ℕ)
    (l : List YelpReview) : ∀ st : ReviewState,
    (importReviewsLoop bids maxR maxT l st).db.businesses =
      st.db.businesses := by
  induction l with
  | nil => intro st; rfl
  | cons rv rest ih =>
    intro st
    by_cases h1 : rv.business_id ∉ bids
    · rw [importReviewsLoop_cons_unknown rest h1]; exact ih _
    · by_cases h2 : maxR ≤ st.counts rv.business_id
      · rw [importReviewsLoop_cons_capped rest h1 h2]; exact ih _
      · by_cases h3 : maxT ≤ (persistReview rv st).total
        · rw [importReviewsLoop_cons_break rest h1 h2 h3]
          exact upsertReview_businesses _ _
        · rw [importReviewsLoop_cons_go rest h1 h2 h3, ih]
          exact upsertReview_businesses _ _

/-- Review keys only grow along the review pass. -/
theorem reviewIdsOf_subset_importReviewsLoop (bids : List String)
    (maxR maxT : ℕ) (l : List YelpReview) : ∀ st : ReviewState,
    reviewIdsOf st.db ⊆
      reviewIdsOf (importReviewsLoop bids maxR maxT l st).db := by
  induction l with
  | nil => intro st; exact fun x hx => hx
  | cons rv rest ih =>
    intro st
    by_cases h1 : rv.business_id ∉ bids
    · rw [importReviewsLoop_cons_unknown rest h1]; exact ih (skipReview st)
    · by_cases h2 : maxR ≤ st.counts rv.business_id
      · rw [importReviewsLoop_cons_capped rest h1 h2]
        exact ih (skipReview st)
      · by_cases h3 : maxT ≤ (persistReview rv st).total
        · rw [importReviewsLoop_cons_break rest h1 h2 h3]
          exact reviewIdsOf_subset_upsertReview _ _
        · rw [importReviewsLoop_cons_go rest h1 h2 h3]
          exact (reviewIdsOf_subset_upsertReview st.db (mkReviewRow rv)).trans
            (ih (persistReview rv st))

/-- Any property of review rows that holds in the starting store and holds
of every row built for a review whose business id is in scope is preserved
by the review pass. -/
theorem importReviewsLoop_rows_invariant (P : ReviewRow → Prop)
    (bids : List String) (maxR maxT : ℕ) (l : List YelpReview) :
    ∀ st : ReviewState, (∀ row ∈ st.db.reviews, P row) →
    (∀ rv : YelpReview, rv.business_id ∈ bids → P (mkReviewRow rv)) →
    ∀ row ∈ (importReviewsLoop bids maxR maxT l st).db.reviews, P row := by
  induction l with
  | nil => intro st h0 _ row hrow; exact h0 row hrow
  | cons rv rest ih =>
    intro st h0 hnew
    have hpersist : ∀ hmem : rv.business_id ∈ bids,
        ∀ row ∈ (persistReview rv st).db.reviews, P row := by
      intro hmem row hrow
      rcases mem_reviews_upsertReview hrow with h | h
      · exact h0 row h
      · rw [h]; exact hnew rv hmem
    by_cases h1 : rv.business_id ∉ bids
    · rw [importReviewsLoop_cons_unknown rest h1]; exact ih _ h0 hnew
    · by_cases h2 : maxR ≤ st.counts rv.business_id
      · rw [importReviewsLoop_cons_capped rest h1 h2]; exact ih _ h0 hnew
      · by_cases h3 : maxT ≤ (persistReview rv st).total
        · rw [importReviewsLoop_cons_break rest h1 h2 h3]
          exact hpersist (not_not.mp h1)
        · rw [importReviewsLoop_cons_go rest h1 h2 h3]
          exact ih _ (hpersist (not_not.mp h1)) hnew

/-- The review pass keeps review keys duplicate-free. -/
theorem nodup_reviewIdsOf_importReviewsLoop (bids : List String)
    (maxR maxT : ℕ) (l : List YelpReview) : ∀ st : ReviewState,
    (reviewIdsOf st.db).Nodup →
    (reviewIdsOf (importReviewsLoop bids maxR maxT l st).db).Nodup := by
  induction l with
  | nil => intro st h; exact h
  | cons rv rest ih =>
    intro st h
    by_cases h1 : rv.business_id ∉ bids
    · rw [importReviewsLoop_cons_unknown rest h1]; exact ih _ h
    · by_cases h2 : maxR ≤ st.counts rv.business_id
      · rw [importReviewsLoop_cons_capped rest h1 h2]; exact ih _ h
      · by_cases h3 : maxT ≤ (persistReview rv st).total
        · rw [importReviewsLoop_cons_break rest h1 h2 h3]
          exact nodup_reviewIdsOf_upsertReview _ h
        · rw [importReviewsLoop_cons_go rest h1 h2 h3]
          exact ih _ (nodup_reviewIdsOf_upsertReview _ h)

/-- Per-business cap: when every business's persisted rows are dominated by
its count and no count exceeds the cap, the same holds after the pass. -/
theorem importReviewsLoop_counts_invariant (bids : List String)
    (maxR maxT : ℕ) (l : List YelpReview) : ∀ st : ReviewState,
    (∀ bid, reviewRowsFor st.db bid ≤ st.counts bid ∧ st.counts bid ≤ maxR) →
    ∀ bid, reviewRowsFor (importReviewsLoop bids maxR maxT l st).db bid ≤
        (importReviewsLoop bids maxR maxT l st).counts bid ∧
      (importReviewsLoop bids maxR maxT l st).counts bid ≤ maxR := by
  induction l with
  | nil => intro st h; exact h
  | cons rv rest ih =>
    intro st h
    have hpersist : ¬maxR ≤ st.counts rv.business_id →
        ∀ bid, reviewRowsFor (persistReview rv st).db bid ≤
            (persistReview rv st).counts bid ∧
          (persistReview rv st).counts bid ≤ maxR := by
      intro h2 bid
      have hup := reviewRowsFor_upsertReview st.db (mkReviewRow rv) bid
      have hrow : (mkReviewRow rv).businessId = rv.business_id := rfl
      rw [hrow] at hup
      have hcnt : (persistReview rv st).counts bid =
          if bid = rv.business_id then st.counts rv.business_id + 1
          else st.counts bid := rfl
      have hdb : (persistReview rv st).db =
          upsertReview st.db (mkReviewRow rv) := rfl
      have hrv := h rv.business_id
      have h0 := h bid
      rw [hdb, hcnt]
      by_cases hbid : bid = rv.business_id
      · rw [if_pos hbid]
        rw [if_pos hbid.symm] at hup
        subst hbid
        exact ⟨by omega, by omega⟩
      · rw [if_neg hbid]
        rw [if_neg (fun hh => hbid hh.symm)] at hup
        exact ⟨by omega, h0.2⟩
    by_cases h1 : rv.business_id ∉ bids
    · rw [importReviewsLoop_cons_unknown rest h1]; exact ih _ h
    · by_cases h2 : maxR ≤ st.counts rv.business_id
      · rw [importReviewsLoop_cons_capped rest h1 h2]; exact ih _ h
      · by_cases h3 : maxT ≤ (persistReview rv st).total
        · rw [importReviewsLoop_cons_break rest h1 h2 h3]
          exact hpersist h2
        · rw [importReviewsLoop_cons_go rest h1 h2 h3]
          exact ih _ (hpersist h2)

/-- Global cap: starting below the global bound with the row count dominated
by `totalImported`, the pass ends with at most `maxT` persisted rows. -/
theorem importReviewsLoop_total_invariant (bids : List String)
    (maxR maxT : ℕ) (l : List YelpReview) : ∀ st : ReviewState,
    st.db.reviews.length ≤ st.total → st.total < maxT →
    (importReviewsLoop bids maxR maxT l st).db.reviews.length ≤
        (importReviewsLoop bids maxR maxT l st).total ∧
      (importReviewsLoop bids maxR maxT l st).total ≤ maxT := by
  induction l with
  | nil => intro st hlen htot; exact ⟨hlen, le_of_lt htot⟩
  | cons rv rest ih =>
    intro st hlen htot
    by_cases h1 : rv.business_id ∉ bids
    · rw [importReviewsLoop_cons_unknown rest h1]; exact ih _ hlen htot
    · by_cases h2 : maxR ≤ st.counts rv.business_id
      · rw [importReviewsLoop_cons_capped rest h1 h2]; exact ih _ hlen htot
      · have hlen2 : (persistReview rv st).db.reviews.length ≤
            (persistReview rv st).total := by
          have := length_upsertReview st.db (mkReviewRow rv)
          have ht : (persistReview rv st).total = st.total + 1 := rfl
          have hd : (persistReview rv st).db =
              upsertReview st.db (mkReviewRow rv) := rfl
          rw [ht, hd]
          omega
        by_cases h3 : maxT ≤ (persistReview rv st).total
        · rw [importReviewsLoop_cons_break rest h1 h2 h3]
          have ht : (persistReview rv st).total = st.total + 1 := rfl
          exact ⟨hlen2, by omega⟩
        · rw [importReviewsLoop_cons_go rest h1 h2 h3]
          exact ih _ hlen2 (by omega)

/-- The pass stops early: once `totalImported` has reached the global bound
while processing a prefix, the remaining input is never processed. -/
theorem importReviewsLoop_early_stop (bids : List String) (maxR maxT : ℕ)
    (l1 l2 : List YelpReview) : ∀ st : ReviewState, st.total < maxT →
    (importReviewsLoop bids maxR maxT l1 st).total = maxT →
    importReviewsLoop bids maxR maxT (l1 ++ l2) st =
      importReviewsLoop bids maxR maxT l1 st := by
  induction l1 with
  | nil =>
    intro st htot hend
    rw [importReviewsLoop_nil] at hend
    omega
  | cons rv rest ih =>
    intro st htot hend
    rw [List.cons_append]
    by_cases h1 : rv.business_id ∉ bids
    · rw [importReviewsLoop_cons_unknown rest h1] at hend
      rw [importReviewsLoop_cons_unknown (rest ++ l2) h1,
        importReviewsLoop_cons_unknown rest h1]
      exact ih _ htot hend
    · by_cases h2 : maxR ≤ st.counts rv.business_id
      · rw [importReviewsLoop_cons_capped rest h1 h2] at hend
        rw [importReviewsLoop_cons_capped (rest ++ l2) h1 h2,
          importReviewsLoop_cons_capped rest h1 h2]
        exact ih _ htot hend
      · by_cases h3 : maxT ≤ (persistReview rv st).total
        · rw [importReviewsLoop_cons_break (rest ++ l2) h1 h2 h3,
            importReviewsLoop_cons_break rest h1 h2 h3]
        · rw [importReviewsLoop_cons_go rest h1 h2 h3] at hend
          rw [importReviewsLoop_cons_go (rest ++ l2) h1 h2 h3,
            importReviewsLoop_cons_go rest h1 h2 h3]
          have ht : (persistReview rv st).total = st.total + 1 := rfl
          exact ih _ (by omega) hend

/-- Re-running the review pass from the store it produced, with the counters
reset, changes nothing: every upsert hits an existing key. -/
theorem importReviewsLoop_idem (bids : List String) (maxR maxT : ℕ)
    (l : List YelpReview) : ∀ (d : Db) (c : String → ℕ) (t k : ℕ),
    (importReviewsLoop bids maxR maxT l
      ⟨(importReviewsLoop bids maxR maxT l ⟨d, c, t, k⟩).db, c, t, k⟩).db =
      (importReviewsLoop bids maxR maxT l ⟨d, c, t, k⟩).db := by
  induction l with
  | nil => intro d c t k; rfl
  | cons rv rest ih =>
    intro d c t k
    by_cases h1 : rv.business_id ∉ bids
    · rw [importReviewsLoop_cons_unknown rest h1]
      rw [@importReviewsLoop_cons_unknown bids maxR maxT rv rest
        ⟨d, c, t, k⟩ h1]
      exact ih d c t (k + 1)
    · by_cases h2 : maxR ≤ c rv.business_id
      · rw [@importReviewsLoop_cons_capped bids maxR maxT rv rest
          ⟨d, c, t, k⟩ h1 h2]
        rw [importReviewsLoop_cons_capped rest h1 h2]
        exact ih d c t (k + 1)
      · by_cases h3 : maxT ≤ t + 1
        · have h3a : maxT ≤ (persistReview rv ⟨d, c, t, k⟩).total := h3
          rw [importReviewsLoop_cons_break rest h1 h2 h3a]
          have hD : (persistReview rv ⟨d, c, t, k⟩).db =
              upsertReview d (mkReviewRow rv) := rfl
          rw [hD]
          have h3b : maxT ≤
              (persistReview rv
                ⟨upsertReview d (mkReviewRow rv), c, t, k⟩).total := h3
          rw [importReviewsLoop_cons_break rest h1 h2 h3b]
          have : (persistReview rv
              ⟨upsertReview d (mkReviewRow rv), c, t, k⟩).db =
              upsertReview (upsertReview d (mkReviewRow rv))
                (mkReviewRow rv) := rfl
          rw [this,
            upsertReview_of_mem (mem_reviewIdsOf_upsertReview d (mkReviewRow rv))]
        · have h3a : ¬maxT ≤ (persistReview rv ⟨d, c, t, k⟩).total := h3
          rw [importReviewsLoop_cons_go rest h1 h2 h3a]
          set D := (importReviewsLoop bids maxR maxT rest
            (persistReview rv ⟨d, c, t, k⟩)).db with hDdef
          have hmemD : (mkReviewRow rv).id ∈ reviewIdsOf D := by
            refine reviewIdsOf_subset_importReviewsLoop bids maxR maxT rest
              (persistReview rv ⟨d, c, t, k⟩) ?_
            exact mem_reviewIdsOf_upsertReview d (mkReviewRow rv)
          have h3b : ¬maxT ≤ (persistReview rv ⟨D, c, t, k⟩).total := h3
          rw [importReviewsLoop_cons_go rest h1 h2 h3b]
          have hD2 : persistReview rv ⟨D, c, t, k⟩ =
              (⟨D, (persistReview rv ⟨d, c, t, k⟩).counts, t + 1, k⟩ :
                ReviewState) := by
            show (⟨upsertReview D (mkReviewRow rv), _, t + 1, k⟩ :
              ReviewState) = _
            rw [upsertReview_of_mem hmemD]
            rfl
          rw [hD2]
          have hP : persistReview rv (⟨d, c, t, k⟩ : ReviewState) =
              (⟨upsertReview d (mkReviewRow rv),
                (persistReview rv ⟨d, c, t, k⟩).counts, t + 1, k⟩ :
                ReviewState) := rfl
          rw [hDdef, hP]
          exact ih (upsertReview d (mkReviewRow rv))
            (persistReview rv ⟨d, c, t, k⟩).counts (t + 1) k

/-! ## Importer: business-pass lemmas -/

/-- The accumulation loop never exceeds the bound when entered below it. -/
theorem selectBusinesses_length_le (maxB : ℕ) (l : List YelpBusiness) :
    ∀ acc : List YelpBusiness, acc.length < maxB →
    (selectBusinesses maxB l acc).length ≤ maxB := by
  induction l with
  | nil => intro acc hacc; exact le_of_lt hacc
  | cons b rest ih =>
    intro acc hacc
    rw [selectBusinesses]
    split
    · simp only []
      split <;> rename_i hlen
      · simp only [List.length_append, List.length_singleton]
        omega
      · refine ih (acc ++ [b]) ?_
        simp only [List.length_append, List.length_singleton] at hlen ⊢
        omega
    · exact ih acc hacc

theorem length_insertByReviewCountDesc (b : YelpBusiness)
    (l : List YelpBusiness) :
    (insertByReviewCountDesc b l).length = l.length + 1 := by
  induction l with
  | nil => rfl
  | cons x xs ih =>
    rw [insertByReviewCountDesc]
    split
    · simp
    · simp only [List.length_cons, ih]

theorem length_sortByReviewCountDesc (l : List YelpBusiness) :
    (sortByReviewCountDesc l).length = l.length := by
  rw [sortByReviewCountDesc]
  induction l with
  | nil => rfl
  | cons b rest ih =>
    simp only [List.foldr_cons, length_insertByReviewCountDesc, ih,
      List.length_cons]

/-- The business fold leaves the review table untouched. -/
theorem businessFold_reviews (l : List YelpBusiness) :
    ∀ st : Db × List String,
    (l.foldl importBusinessesStep st).1.reviews = st.1.reviews := by
  induction l with
  | nil => intro st; rfl
  | cons b rest ih =>
    intro st
    rw [List.foldl_cons, ih]
    exact upsertBusiness_reviews st.1 b

/-- Business keys only grow along the business fold. -/
theorem businessIdsOf_subset_businessFold (l : List YelpBusiness) :
    ∀ st : Db × List String,
    businessIdsOf st.1 ⊆ businessIdsOf (l.foldl importBusinessesStep st).1 := by
  induction l with
  | nil => intro st; exact fun x hx => hx
  | cons b rest ih =>
    intro st
    rw [List.foldl_cons]
    exact (businessIdsOf_subset_upsertBusiness st.1 b).trans
      (ih (importBusinessesStep st b))

/-- Every input id ends up among the persisted business keys. -/
theorem mem_businessIdsOf_businessFold (l : List YelpBusiness) :
    ∀ st : Db × List String, ∀ b ∈ l,
    b.business_id ∈ businessIdsOf (l.foldl importBusinessesStep st).1 := by
  induction l with
  | nil => intro st b hb; cases hb
  | cons x rest ih =>
    intro st b hb
    rw [List.foldl_cons]
    rcases List.mem_cons.mp hb with hb | hb
    · subst hb
      refine businessIdsOf_subset_businessFold rest
        (importBusinessesStep st b) ?_
      exact mem_businessIdsOf_upsertBusiness st.1 b
    · exact ih (importBusinessesStep st x) b hb

/-- When every input id is already a key, the business fold is a no-op on
the store. -/
theorem businessFold_fst_of_mem (l : List YelpBusiness) :
    ∀ (db : Db) (ids : List String),
    (∀ b ∈ l, b.business_id ∈ businessIdsOf db) →
    (l.foldl importBusinessesStep (db, ids)).1 = db := by
  induction l with
  | nil => intro db ids _; rfl
  | cons b rest ih =>
    intro db ids hmem
    rw [List.foldl_cons]
    have hstep : importBusinessesStep (db, ids) b =
        (db, if b.business_id ∈ ids then ids else ids ++ [b.business_id]) := by
      rw [importBusinessesStep]
      rw [upsertBusiness_of_mem (hmem b (List.mem_cons_self b rest))]
    rw [hstep]
    exact ih db _ (fun x hx => hmem x (List.mem_cons_of_mem b hx))

/-- The set of collected business ids does not depend on the store. -/
theorem businessFold_snd_congr (l : List YelpBusiness) :
    ∀ (d1 d2 : Db) (ids : List String),
    (l.foldl importBusinessesStep (d1, ids)).2 =
      (l.foldl importBusinessesStep (d2, ids)).2 := by
  induction l with
  | nil => intro d1 d2 ids; rfl
  | cons b rest ih =>
    intro d1 d2 ids
    rw [List.foldl_cons, List.foldl_cons]
    exact ih (upsertBusiness d1 b) (upsertBusiness d2 b) _

/-- The business fold adds at most one row per input record. -/
theorem businessFold_length (l : List YelpBusiness) :
    ∀ st : Db × List String,
    (l.foldl importBusinessesStep st).1.businesses.length ≤
      st.1.businesses.length + l.length := by
  induction l with
  | nil => intro st; simp
  | cons b rest ih =>
    intro st
    rw [List.foldl_cons]
    have h1 := ih (importBusinessesStep st b)
    have h2 := length_upsertBusiness st.1 b
    simp only [List.length_cons]
    have hfst : (importBusinessesStep st b).1 = upsertBusiness st.1 b := rfl
    rw [hfst] at h1
    omega

/-- The business fold keeps business keys duplicate-free. -/
theorem nodup_businessIdsOf_businessFold (l : List YelpBusiness) :
    ∀ st : Db × List String, (businessIdsOf st.1).Nodup →
    (businessIdsOf (l.foldl importBusinessesStep st).1).Nodup := by
  induction l with
  | nil => intro st h; exact h
  | cons b rest ih =>
    intro st h
    rw [List.foldl_cons]
    exact ih (importBusinessesStep st b)
      (nodup_businessIdsOf_upsertBusiness b h)

/-! ## Importer: top-level unfoldings -/

theorem runImport_eq (maxB maxR : ℕ) (binput : List YelpBusiness)
    (rinput : List YelpReview) (db : Db) :
    runImport maxB maxR binput rinput db =
      (importReviewsLoop (importBusinesses maxB binput db).2 maxR
        (maxB * maxR) rinput
        (initReviewState (importBusinesses maxB binput db).1)).db := rfl

theorem importBusinesses_reviews (maxB : ℕ) (binput : List YelpBusiness)
    (db : Db) : (importBusinesses maxB binput db).1.reviews = db.reviews := by
  rw [importBusinesses]
  exact businessFold_reviews _ _

/-! ## Claim theorems: importer -/

/-- C1: over the ratings 1 to 5, `getRiskLevelFromRating` returns HIGH_RISK
exactly below 3 stars, MEDIUM_RISK exactly at 3 stars and LOW_RISK exactly
above; and every review row the importer persists carries exactly that
function of its own rating as its stored risk level. -/
theorem c1_risk_classification :
    (∀ r : ℤ, r ∈ ([1, 2, 3, 4, 5] : List ℤ) →
      ((getRiskLevelFromRating r = RiskLevel.HIGH_RISK ↔ r ≤ 2) ∧
        (getRiskLevelFromRating r = RiskLevel.MEDIUM_RISK ↔ r = 3) ∧
        (getRiskLevelFromRating r = RiskLevel.LOW_RISK ↔ 4 ≤ r))) ∧
    (∀ (maxB maxR : ℕ) (binput : List YelpBusiness)
      (rinput : List YelpReview) (row : ReviewRow),
      row ∈ (runImport maxB maxR binput rinput emptyDb).reviews →
      row.riskLevel = getRiskLevelFromRating row.rating) := by
  constructor
  · intro r hr
    fin_cases hr <;> decide
  · intro maxB maxR binput rinput row hrow
    rw [runImport_eq] at hrow
    refine importReviewsLoop_rows_invariant
      (fun row => row.riskLevel = getRiskLevelFromRating row.rating)
      _ maxR (maxB * maxR) rinput _ ?_ ?_ row hrow
    · intro r0 hr0
      have hdb : (initReviewState (importBusinesses maxB binput emptyDb).1).db =
          (importBusinesses maxB binput emptyDb).1 := rfl
      rw [hdb, importBusinesses_reviews] at hr0
      simp [emptyDb] at hr0
    · intro rv _
      rfl

/-- Witness for C1 at rating 2 and at the one review row persisted by a
one-business one-review run. -/
theorem c1_witness :
    (getRiskLevelFromRating 2 = RiskLevel.HIGH_RISK ↔ (2 : ℤ) ≤ 2) ∧
      (mkReviewRow revW).riskLevel =
        getRiskLevelFromRating (mkReviewRow revW).rating :=
  ⟨(c1_risk_classification.1 2 (by decide)).1,
    c1_risk_classification.2 1 1 [bizW] [revW] (mkReviewRow revW) (by decide)⟩

/-- C5: with positive bounds the import persists at most `maxB` business
rows, at most `maxR` review rows per business, at most `maxB * maxR` review
rows in total, and once `totalImported` reaches `maxB * maxR` on a prefix
of the review input the rest of the input is never processed. -/
theorem c5_bounded_import (maxB maxR : ℕ) (binput : List YelpBusiness)
    (rinput : List YelpReview) (h1 : 1 ≤ maxB) (h2 : 1 ≤ maxR) :
    (runImport maxB maxR binput rinput emptyDb).businesses.length ≤ maxB ∧
      (∀ bid, reviewRowsFor (runImport maxB maxR binput rinput emptyDb) bid ≤
        maxR) ∧
      (runImport maxB maxR binput rinput emptyDb).reviews.length ≤
        maxB * maxR ∧
      (∀ l1 l2, rinput = l1 ++ l2 →
        (importReviewsLoop (importBusinesses maxB binput emptyDb).2 maxR
          (maxB * maxR) l1
          (initReviewState (importBusinesses maxB binput emptyDb).1)).total =
            maxB * maxR →
        runImport maxB maxR binput rinput emptyDb =
          runImport maxB maxR binput l1 emptyDb) := by
  have hrev0 : (initReviewState (importBusinesses maxB binput emptyDb).1).db.reviews
      = [] := by
    have hdb : (initReviewState (importBusinesses maxB binput emptyDb).1).db =
        (importBusinesses maxB binput emptyDb).1 := rfl
    rw [hdb, importBusinesses_reviews]
    rfl
  refine ⟨?_, ?_, ?_, ?_⟩
  · rw [runImport_eq]
    have hbiz := importReviewsLoop_businesses
      (importBusinesses maxB binput emptyDb).2 maxR (maxB * maxR) rinput
      (initReviewState (importBusinesses maxB binput emptyDb).1)
    rw [hbiz]
    have hfold := businessFold_length
      (sortByReviewCountDesc (selectBusinesses maxB binput []))
      (emptyDb, ([] : List String))
    have hsel := selectBusinesses_length_le maxB binput [] (by simpa using h1)
    rw [length_sortByReviewCountDesc] at hfold
    have hinit : (initReviewState (importBusinesses maxB binput emptyDb).1).db =
        (importBusinesses maxB binput emptyDb).1 := rfl
    rw [hinit, importBusinesses]
    have h0 : ((emptyDb, ([] : List String)).1).businesses.length = 0 := rfl
    omega
  · intro bid
    rw [runImport_eq]
    have hinv := importReviewsLoop_counts_invariant
      (importBusinesses maxB binput emptyDb).2 maxR (maxB * maxR) rinput
      (initReviewState (importBusinesses maxB binput emptyDb).1) ?_ bid
    · have hsub : reviewRowsFor
          (importReviewsLoop (importBusinesses maxB binput emptyDb).2 maxR
            (maxB * maxR) rinput
            (initReviewState (importBusinesses maxB binput emptyDb).1)).db bid ≤
          (importReviewsLoop (importBusinesses maxB binput emptyDb).2 maxR
            (maxB * maxR) rinput
            (initReviewState (importBusinesses maxB binput emptyDb).1)).counts
            bid := hinv.1
      exact le_trans hsub hinv.2
    · intro bid2
      constructor
      · rw [reviewRowsFor, hrev0]
        simp
      · exact Nat.zero_le _
  · rw [runImport_eq]
    have htot := importReviewsLoop_total_invariant
      (importBusinesses maxB binput emptyDb).2 maxR (maxB * maxR) rinput
      (initReviewState (importBusinesses maxB binput emptyDb).1) ?_ ?_
    · exact le_trans htot.1 htot.2
    · rw [hrev0]; exact Nat.zero_le _
    · show 0 < maxB * maxR
      exact Nat.mul_pos h1 h2
  · intro l1 l2 heq htot
    rw [heq, runImport_eq, runImport_eq]
    have hstop := importReviewsLoop_early_stop
      (importBusinesses maxB binput emptyDb).2 maxR (maxB * maxR) l1 l2
      (initReviewState (importBusinesses maxB binput emptyDb).1)
      (by show 0 < maxB * maxR; exact Nat.mul_pos h1 h2) htot
    rw [hstop]

/-- Witness for C5 at bounds 1/1 with one business and two candidate
reviews. -/
theorem c5_witness :
    (runImport 1 1 [bizW] [revW, revW2] emptyDb).businesses.length ≤ 1 ∧
      (runImport 1 1 [bizW] [revW, revW2] emptyDb).reviews.length ≤ 1 * 1 :=
  ⟨(c5_bounded_import 1 1 [bizW] [revW, revW2] (le_refl 1) (le_refl 1)).1,
    (c5_bounded_import 1 1 [bizW] [revW, revW2] (le_refl 1) (le_refl 1)).2.2.1⟩

/-- C6: a second run of the importer over the same inputs and bounds leaves
the persisted state unchanged, and one run from an empty store produces no
duplicate business or review keys. -/
theorem c6_import_idempotent (maxB maxR : ℕ) (binput : List YelpBusiness)
    (rinput : List YelpReview) :
    runImport maxB maxR binput rinput
        (runImport maxB maxR binput rinput emptyDb) =
      runImport maxB maxR binput rinput emptyDb ∧
    (businessIdsOf (runImport maxB maxR binput rinput emptyDb)).Nodup ∧
    (reviewIdsOf (runImport maxB maxR binput rinput emptyDb)).Nodup := by
  set sorted := sortByReviewCountDesc (selectBusinesses maxB binput [])
    with hsorted
  set dbB := (sorted.foldl importBusinessesStep
    (emptyDb, ([] : List String))).1 with hdbB
  set bids := (sorted.foldl importBusinessesStep
    (emptyDb, ([] : List String))).2 with hbids
  set final1 := (importReviewsLoop bids maxR (maxB * maxR) rinput
    (initReviewState dbB)).db with hfinal1
  have hrun1 : runImport maxB maxR binput rinput emptyDb = final1 := rfl
  have hf1b : final1.businesses = dbB.businesses :=
    importReviewsLoop_businesses bids maxR (maxB * maxR) rinput
      (initReviewState dbB)
  have hbidsOf : businessIdsOf final1 = businessIdsOf dbB := by
    rw [businessIdsOf, businessIdsOf, hf1b]
  have hmem : ∀ b ∈ sorted, b.business_id ∈ businessIdsOf final1 := by
    intro b hb
    rw [hbidsOf]
    exact mem_businessIdsOf_businessFold sorted (emptyDb, []) b hb
  have hfoldfst : (sorted.foldl importBusinessesStep
      (final1, ([] : List String))).1 = final1 :=
    businessFold_fst_of_mem sorted final1 [] hmem
  have hfoldsnd : (sorted.foldl importBusinessesStep
      (final1, ([] : List String))).2 = bids :=
    businessFold_snd_congr sorted final1 emptyDb []
  refine ⟨?_, ?_, ?_⟩
  · rw [hrun1]
    calc runImport maxB maxR binput rinput final1
        = (importReviewsLoop (sorted.foldl importBusinessesStep
            (final1, ([] : List String))).2 maxR (maxB * maxR) rinput
            (initReviewState (sorted.foldl importBusinessesStep
              (final1, ([] : List String))).1)).db := rfl
      _ = (importReviewsLoop bids maxR (maxB * maxR) rinput
            (initReviewState final1)).db := by rw [hfoldfst, hfoldsnd]
      _ = final1 :=
          importReviewsLoop_idem bids maxR (maxB * maxR) rinput dbB
            (fun _ => 0) 0 0
  · rw [hrun1, hbidsOf]
    refine nodup_businessIdsOf_businessFold sorted (emptyDb, []) ?_
    simp [businessIdsOf, emptyDb]
  · rw [hrun1]
    refine nodup_reviewIdsOf_importReviewsLoop bids maxR (maxB * maxR) rinput
      (initReviewState dbB) ?_
    have hdbrev : dbB.reviews = [] := by
      rw [hdbB]
      have := businessFold_reviews sorted (emptyDb, ([] : List String))
      simpa [emptyDb] using this
    show (reviewIdsOf dbB).Nodup
    rw [reviewIdsOf, hdbrev]
    exact List.nodup_nil

/-- C7: every persisted review row references a business id returned by the
business pass; the review pass preserves this at every step, and a review
whose business id is out of scope is skipped with the store untouched. -/
theorem c7_reviews_reference_businesses :
    (∀ (maxB maxR : ℕ) (binput : List YelpBusiness)
      (rinput : List YelpReview),
      ∀ row ∈ (runImport maxB maxR binput rinput emptyDb).reviews,
      row.businessId ∈ (importBusinesses maxB binput emptyDb).2) ∧
    (∀ (bids : List String) (maxR maxT : ℕ) (l : List YelpReview)
      (st : ReviewState), (∀ row ∈ st.db.reviews, row.businessId ∈ bids) →
      ∀ row ∈ (importReviewsLoop bids maxR maxT l st).db.reviews,
      row.businessId ∈ bids) ∧
    (∀ (bids : List String) (maxR maxT : ℕ) (rv : YelpReview)
      (rest : List YelpReview) (st : ReviewState), rv.business_id ∉ bids →
      importReviewsLoop bids maxR maxT (rv :: rest) st =
        importReviewsLoop bids maxR maxT rest (skipReview st) ∧
      (skipReview st).db = st.db) := by
  refine ⟨?_, ?_, ?_⟩
  · intro maxB maxR binput rinput row hrow
    rw [runImport_eq] at hrow
    refine importReviewsLoop_rows_invariant
      (fun row => row.businessId ∈ (importBusinesses maxB binput emptyDb).2)
      _ maxR (maxB * maxR) rinput _ ?_ ?_ row hrow
    · intro r0 hr0
      have hdb : (initReviewState (importBusinesses maxB binput emptyDb).1).db =
          (importBusinesses maxB binput emptyDb).1 := rfl
      rw [hdb, importBusinesses_reviews] at hr0
      simp [emptyDb] at hr0
    · intro rv hrv
      exact hrv
  · intro bids maxR maxT l st h0
    exact importReviewsLoop_rows_invariant
      (fun row => row.businessId ∈ bids) bids maxR maxT l st h0
      (fun rv hrv => hrv)
  · intro bids maxR maxT rv rest st h
    exact ⟨importReviewsLoop_cons_unknown rest h, rfl⟩

/-- Witness for C7 at a one-business one-review run. -/
theorem c7_witness :
    (mkReviewRow revW).businessId ∈ (importBusinesses 1 [bizW] emptyDb).2 :=
  c7_reviews_reference_businesses.1 1 1 [bizW] [revW] (mkReviewRow revW)
    (by decide)

/-! ## Claim theorems: reviews-filter validation -/

/-- C8 counterexample: a request with out-of-range `minRating = 7` is not
rejected: validation succeeds with the bound silently dropped, and the
query executes, scanning the table and returning rows. -/
theorem c8_counterexample :
    buildWhere qMin7 0 = Except.ok wEmpty ∧
      reviewsHandler qMin7 0 ⟨[], [rowFive]⟩ = Except.ok [rowFive] := by
  constructor <;> rfl

/-- C8 amended: a reviews-filter request is rejected as a client-input
error exactly when it carries an invalid non-empty risk-level value with
`needsAttention` unset, or an out-of-range exact rating; out-of-range
`minRating`/`maxRating` bounds are silently ignored instead.  A validation
error is returned before the table is scanned. -/
theorem c8_filter_validation (q : ReviewsQuery) (now : ℤ) (db : Db) :
    ((buildWhere q now).isOk = false ↔
      ((∃ s, q.riskLevel = some s ∧ s ≠ "" ∧ s ∉ validRiskLevels) ∧
          ¬q.needsAttention) ∨
        (∃ n, q.rating = some n ∧ (n < 1 ∨ 5 < n))) ∧
    (∀ e, buildWhere q now = Except.error e →
      reviewsHandler q now db = Except.error e) := by
  constructor
  · rcases hrl : q.riskLevel with _ | s <;>
      rcases hr : q.rating with _ | n <;>
      simp only [buildWhere, hrl, hr] <;>
      split_ifs <;>
      simp_all [Except.isOk, Except.toBool, validRiskLevels] <;>
      first
        | omega
        | tauto
  · intro e he
    rw [reviewsHandler, he]

/-- Witness for the amended C8: `rating = 7` is rejected before the query
runs. -/
theorem c8_witness :
    reviewsHandler qRating7 0 ⟨[], [rowFive]⟩ =
      Except.error "Rating must be between 1 and 5" :=
  (c8_filter_validation qRating7 0 ⟨[], [rowFive]⟩).2
    "Rating must be between 1 and 5" (by rfl)

end ReviewDashboard
